import Mathlib

/-!
Verification of the HL7v2 decode/encode/project core of the HL7AutoCT
repository, shallowly embedded in Lean.

The embedding follows the Python sources:
  hl7v2_parser.py                (parse_field, getSegments, hl7_to_custom_json,
                                  split_hl7_messages, serialize_field,
                                  convert_to_parquet_tables)
  generate_hl7v2_specification.py (flatten_value, format_value_list)

Python strings are Lean strings; Python lists/nested lists of parsed field
values are modelled by the inductive type PyVal.  Functions that can raise
in Python return Except String.
-/

/-- Model of the Python values that flow through the parser and the
reporting code: strings, (nested) lists, integers, booleans and None.
Dictionaries never occur among parsed field values and are not modelled. -/
inductive PyVal : Type where
  | str : String → PyVal
  | lst : List PyVal → PyVal
  | int : Int → PyVal
  | bool : Bool → PyVal
  | null : PyVal

mutual

/-- Boolean equality on PyVal (structural). -/
def PyVal.beq : PyVal → PyVal → Bool
  | .str a, .str b => a == b
  | .lst a, .lst b => PyVal.beqList a b
  | .int a, .int b => a == b
  | .bool a, .bool b => a == b
  | .null, .null => true
  | _, _ => false

/-- Boolean equality on lists of PyVal. -/
def PyVal.beqList : List PyVal → List PyVal → Bool
  | [], [] => true
  | a :: as', b :: bs' => PyVal.beq a b && PyVal.beqList as' bs'
  | _, _ => false

end

theorem PyVal.beq_iff : ∀ a b : PyVal, PyVal.beq a b = true ↔ a = b := by
  have main : ∀ a : PyVal, (∀ b, PyVal.beq a b = true ↔ a = b) := by
    intro a
    induction a using PyVal.rec
      (motive_2 := fun l => ∀ l', PyVal.beqList l l' = true ↔ l = l') with
    | str s => intro b; cases b <;> simp [PyVal.beq]
    | lst l ih =>
        intro b
        cases b <;> simp [PyVal.beq]
        exact ih _
    | int n => intro b; cases b <;> simp [PyVal.beq]
    | bool v => intro b; cases b <;> simp [PyVal.beq]
    | null => intro b; cases b <;> simp [PyVal.beq]
    | nil => rename_i l'; cases l' <;> simp [PyVal.beqList]
    | cons h t ih1 ih2 =>
        rename_i l'
        cases l' with
        | nil => simp [PyVal.beqList]
        | cons h' t' => simp [PyVal.beqList, ih1, ih2]
  exact main

instance : DecidableEq PyVal := fun a b =>
  decidable_of_iff (PyVal.beq a b = true) (PyVal.beq_iff a b)

/-! ## Python string splitting

Python `s.split(sep)` with a one-character separator, and `re.split` with a
single-character alternation, split at every occurrence of the separator and
always return at least one (possibly empty) chunk.  We model both with one
predicate-based splitter over the character list of the string. -/

/-- Split a character list at every character satisfying p.  Mirrors Python
str.split with a one-character separator: the result is never empty, and
splitting the empty string yields one empty chunk. -/
def pySplitPred (p : Char → Bool) : List Char → List (List Char)
  | [] => [[]]
  | c :: cs =>
    match pySplitPred p cs with
    | [] => [[]]
    | h :: t => if p c then [] :: h :: t else (c :: h) :: t

/-- Python s.split(sep) for a single-character separator. -/
def pySplit (sep : Char) (s : String) : List String :=
  (pySplitPred (fun c => c = sep) s.data).map (fun l => (⟨l⟩ : String))

theorem pySplitPred_ne_nil (p : Char → Bool) (l : List Char) :
    pySplitPred p l ≠ [] := by
  cases l with
  | nil => simp [pySplitPred]
  | cons c cs =>
    simp only [pySplitPred]
    cases h : pySplitPred p cs with
    | nil => simp
    | cons h t =>
      by_cases hp : p c <;> simp [hp]

/-- Splitting a list with no separator occurrence yields the list itself as
the single chunk. -/
theorem pySplitPred_eq_single (p : Char → Bool) (l : List Char)
    (h : ∀ c ∈ l, p c = false) : pySplitPred p l = [l] := by
  induction l with
  | nil => simp [pySplitPred]
  | cons c cs ih =>
    have hc : p c = false := h c (by simp)
    have ht : pySplitPred p cs = [cs] := ih (fun x hx => h x (by simp [hx]))
    simp [pySplitPred, ht, hc]

/-- A single returned chunk is the whole input. -/
theorem pySplitPred_single (p : Char → Bool) (l m : List Char)
    (h : pySplitPred p l = [m]) : m = l := by
  induction l generalizing m with
  | nil =>
    simp [pySplitPred] at h
    simp [h]
  | cons c cs ih =>
    simp only [pySplitPred] at h
    cases hcs : pySplitPred p cs with
    | nil => exact absurd hcs (pySplitPred_ne_nil p cs)
    | cons h0 t0 =>
      rw [hcs] at h
      by_cases hp : p c
      · simp [hp] at h
      · simp [hp] at h
        obtain ⟨rfl, rfl, rfl⟩ := h
        have := ih h0 (by rw [hcs])
        simp [this]

/-- When the separator occurs, the split has at least two chunks. -/
theorem pySplitPred_two_le (p : Char → Bool) (l : List Char)
    (c : Char) (hmem : c ∈ l) (hc : p c = true) :
    2 ≤ (pySplitPred p l).length := by
  induction l with
  | nil => simp at hmem
  | cons a as ih =>
    simp only [pySplitPred]
    cases has : pySplitPred p as with
    | nil => exact absurd has (pySplitPred_ne_nil p as)
    | cons h0 t0 =>
      by_cases hp : p a
      · simp [hp]
      · have hmem' : c ∈ as := by
          rcases List.mem_cons.mp hmem with rfl | h'
          · exact absurd hc (by simp [hp])
          · exact h'
        have := ih hmem'
        rw [has] at this
        simp [hp]
        simpa using this

/-! ## Field decoder (hl7v2_parser.parse_field) -/

/-- One component of a field: split on the sub-component separator only when
it occurs, mirroring the `if '&' in comp` test in parse_field. -/
def parse_comp (comp : String) : PyVal :=
  if '&' ∈ comp.data then PyVal.lst ((pySplit '&' comp).map PyVal.str)
  else PyVal.str comp

/-- The component list of one repetition chunk: split on the component
separator and parse each piece. -/
def parse_comps (chunk : String) : List PyVal :=
  (pySplit '^' chunk).map parse_comp

/-- hl7v2_parser.parse_field: split the field on the repetition separator.
A single repetition is parsed as a component list, collapsed to its only
element when the list has exactly one entry; with two or more repetitions
each chunk is parsed as a component list (never collapsed) and the outer
repetition list is returned.  The match arms for an empty split result are
unreachable because pySplit never returns an empty list. -/
def parse_field (field : String) : PyVal :=
  match pySplit '~' field with
  | [r] =>
    match parse_comps r with
    | [x] => x
    | cl => PyVal.lst cl
  | reps => PyVal.lst (reps.map (fun r => PyVal.lst (parse_comps r)))

example : parse_field "" = PyVal.str "" := by decide
example : parse_field "HospitalA" = PyVal.str "HospitalA" := by decide
example : parse_field "ICU^101" = PyVal.lst [PyVal.str "ICU", PyVal.str "101"] := by decide
example : parse_field "LN&GLU&1234"
    = PyVal.lst [PyVal.str "LN", PyVal.str "GLU", PyVal.str "1234"] := by decide
example : parse_field "a~b"
    = PyVal.lst [PyVal.lst [PyVal.str "a"], PyVal.lst [PyVal.str "b"]] := by decide

/-! ## Python str.strip and the segment splitter -/

/-- The ASCII whitespace characters removed by Python str.strip (the unicode
whitespace characters beyond ASCII are not modelled). -/
def pyIsSpace (c : Char) : Bool :=
  c = ' ' || c = '\t' || c = '\n' || c = '\r' || c = Char.ofNat 11 || c = Char.ofNat 12

/-- Python str.strip on a character list. -/
def pyStripChars (l : List Char) : List Char :=
  ((l.dropWhile pyIsSpace).reverse.dropWhile pyIsSpace).reverse

/-- Python str.strip. -/
def pyStrip (s : String) : String := (⟨pyStripChars s.data⟩ : String)

/-- hl7v2_parser.getSegments: re.split of a stripped message on every
carriage-return or line-feed character. -/
def getSegments (msg : String) : List String :=
  (pySplitPred (fun c => c = '\r' || c = '\n') (pyStripChars msg.data)).map
    (fun l => (⟨l⟩ : String))

theorem pyStrip_of_all_space (s : String) (h : ∀ c ∈ s.data, pyIsSpace c = true) :
    pyStrip s = "" := by
  have h1 : s.data.dropWhile pyIsSpace = [] := List.dropWhile_eq_nil_iff.mpr h
  simp [pyStrip, pyStripChars, h1]

example : pyStrip "  a b\t" = "a b" := by decide
example : getSegments "MSH|a\r\nPID|b\n" = ["MSH|a", "", "PID|b"] := by decide

/-! ## Message assembler (hl7v2_parser.hl7_to_custom_json) -/

instance {ε α : Type} [DecidableEq ε] [DecidableEq α] : DecidableEq (Except ε α) := by
  intro a b
  cases a <;> cases b <;>
    first
      | (rename_i x y
         exact decidable_of_iff (x = y) (by constructor <;> (intro h; simp_all)))
      | (apply isFalse; intro h; simp_all)

/-- The field mapping of one segment: insertion-ordered pairs from string
position key to decoded field value.  Models the Python dict seg_data. -/
abbrev SegData := List (String × PyVal)

/-- The value stored under one segment name in an assembled message: either
one field mapping (exactly one occurrence) or the ordered list of field
mappings (two or more occurrences). -/
inductive SegEntry : Type where
  | single : SegData → SegEntry
  | multiple : List SegData → SegEntry
deriving DecidableEq

/-- An assembled message: insertion-ordered pairs from segment name to its
entry.  Models the Python dict returned by hl7_to_custom_json. -/
abbrev Message := List (String × SegEntry)

/-- The loop `for i, field in enumerate(fields, start=field_offset)` of
hl7_to_custom_json: number the tokens from start, decode each non-empty one
with parse_field under its string position key, and skip empty tokens. -/
def numberFields (start : Nat) : List String → SegData
  | [] => []
  | f :: rest =>
    (if f = "" then [] else [(toString start, parse_field f)]) ++
      numberFields (start + 1) rest

/-- The per-line body of hl7_to_custom_json: strip the line, split it on the
field separator, and build the (segment name, field mapping) pair.  For the
header segment the code synthesizes key "1" as the separator character,
stores the next raw token verbatim under key "2" (Python parts[1], an
IndexError when the line has a single token), and numbers the remaining
tokens from 3; every other segment numbers its tokens from 1. -/
def parseSegLine (segment : String) : Except String (String × SegData) :=
  match pySplit '|' (pyStrip segment) with
  | [] => Except.error "IndexError"
  | seg_name :: rest =>
    if seg_name = "MSH" then
      match rest with
      | p1 :: fields =>
        Except.ok ("MSH",
          ("1", PyVal.str "|") :: ("2", PyVal.str p1) :: numberFields 3 fields)
      | [] => Except.error "IndexError"
    else
      Except.ok (seg_name, numberFields 1 rest)

/-- The non-blank segment lines of a message, each parsed by parseSegLine.
The blank-line test is Python `if not segment.strip()`. -/
def parsedLines (msg : String) : Except String (List (String × SegData)) :=
  ((getSegments msg).filter (fun s => pyStrip s ≠ "")).mapM parseSegLine

/-- The grouping shared by the two defaultdict(list) accumulators of the
source: append entries under a key, keeping first-insertion key order. -/
def addGroup {β : Type} (m : List (String × List β)) (name : String) (ds : List β) :
    List (String × List β) :=
  match m with
  | [] => [(name, ds)]
  | (k, ex) :: rest =>
    if k = name then (k, ex ++ ds) :: rest else (k, ex) :: addGroup rest name ds

/-- defaultdict(list) append: add one occurrence under its segment name,
keeping first-insertion key order. -/
def addOcc (m : List (String × List SegData)) (name : String) (d : SegData) :
    List (String × List SegData) :=
  addGroup m name [d]

/-- The final loop of hl7_to_custom_json: a one-element occurrence list
collapses to the bare field mapping, longer lists are kept as lists. -/
def collapseMsg (m : List (String × List SegData)) : Message :=
  m.map (fun p =>
    (p.1, match p.2 with
          | [d] => SegEntry.single d
          | ds => SegEntry.multiple ds))

/-- Accumulate the parsed (name, data) pairs in encounter order and apply
the single-occurrence collapse. -/
def assemble (ps : List (String × SegData)) : Message :=
  collapseMsg (ps.foldl (fun acc p => addOcc acc p.1 p.2) [])

/-- hl7v2_parser.hl7_to_custom_json as a whole: split into segment lines,
skip blank ones, parse each line, group occurrences by segment name and
collapse single occurrences.  An IndexError inside the loop is the error
outcome. -/
def hl7_to_custom_json (msg : String) : Except String Message :=
  (parsedLines msg).map assemble

example :
    hl7_to_custom_json "MSH|^~\\&|SendApp\rPID||123\rOBX|1\rOBX|2" =
      Except.ok
        [("MSH", SegEntry.single
            [("1", PyVal.str "|"), ("2", PyVal.str "^~\\&"),
             ("3", PyVal.str "SendApp")]),
         ("PID", SegEntry.single [("2", PyVal.str "123")]),
         ("OBX", SegEntry.multiple
            [[("1", PyVal.str "1")], [("1", PyVal.str "2")]])] := by decide

example : hl7_to_custom_json "MSH" = Except.error "IndexError" := by decide

/-! ## Message splitter (hl7v2_parser.split_hl7_messages) -/

/-- re.split on the literal pattern of the header token: cut the character
list at every non-overlapping occurrence of M,S,H,| from the left. -/
def splitMSHChars : List Char → List (List Char)
  | [] => [[]]
  | 'M' :: 'S' :: 'H' :: '|' :: rest => [] :: splitMSHChars rest
  | c :: cs =>
    match splitMSHChars cs with
    | [] => [[c]]
    | h :: t => (c :: h) :: t

/-- Python str.startswith, on the underlying character lists. -/
def pyStartsWith (pre s : String) : Bool := pre.data.isPrefixOf s.data

/-- hl7v2_parser.split_hl7_messages: strip the blob, split it on the header
token, drop chunks that are blank after stripping, and put the header token
back in front of every chunk that does not already carry it. -/
def split_hl7_messages (raw : String) : List String :=
  let chunks := (splitMSHChars (pyStripChars raw.data)).map (fun l => (⟨l⟩ : String))
  (chunks.filter (fun c => pyStrip c ≠ "")).map
    (fun c => if pyStartsWith "MSH|" c then c else "MSH|" ++ c)

example :
    split_hl7_messages "MSH|one\rPID|1\nMSH|two\rPID|2" =
      ["MSH|one\rPID|1\n", "MSH|two\rPID|2"] := by decide
example : split_hl7_messages "PID|floating" = ["MSH|PID|floating"] := by decide
example : split_hl7_messages "  \n " = [] := by decide
example : split_hl7_messages "MSH|a MSH|b" = ["MSH|a ", "MSH|b"] := by decide

/-! ## JSON serialization (Python json.dumps, used by serialize_field) -/

/-- Lowercase hexadecimal digit. -/
def hexDigit (n : Nat) : Char :=
  if n < 10 then Char.ofNat (48 + n) else Char.ofNat (87 + n)

/-- Four hexadecimal digits of a number below 65536. -/
def hex4 (n : Nat) : List Char :=
  [hexDigit (n / 4096 % 16), hexDigit (n / 256 % 16),
   hexDigit (n / 16 % 16), hexDigit (n % 16)]

/-- The backslash-u escape json.dumps uses for a character outside
printable ASCII, with a surrogate pair above the basic plane. -/
def jsonUEscape (n : Nat) : List Char :=
  if n < 65536 then '\\' :: 'u' :: hex4 n
  else
    let m := n - 65536
    ('\\' :: 'u' :: hex4 (55296 + m / 1024)) ++ ('\\' :: 'u' :: hex4 (56320 + m % 1024))

/-- How json.dumps (ensure_ascii default) renders one character inside a
string literal. -/
def jsonEscapeChar (c : Char) : List Char :=
  if c = '"' then ['\\', '"']
  else if c = '\\' then ['\\', '\\']
  else if c = '\n' then ['\\', 'n']
  else if c = '\r' then ['\\', 'r']
  else if c = '\t' then ['\\', 't']
  else if c = Char.ofNat 8 then ['\\', 'b']
  else if c = Char.ofNat 12 then ['\\', 'f']
  else if c.val < 32 || 127 ≤ c.val then jsonUEscape c.val.toNat
  else [c]

mutual

/-- Python json.dumps with its default separators, restricted to the value
shapes of PyVal (dictionaries are not modelled). -/
def jsonDumps : PyVal → String
  | .str s => (⟨'"' :: (s.data.map jsonEscapeChar).flatten ++ ['"']⟩ : String)
  | .int n => toString n
  | .bool b => if b then "true" else "false"
  | .null => "null"
  | .lst l => "[" ++ jsonDumpsList l ++ "]"

/-- Comma-space separated json.dumps of list elements. -/
def jsonDumpsList : List PyVal → String
  | [] => ""
  | [x] => jsonDumps x
  | x :: xs => jsonDumps x ++ ", " ++ jsonDumpsList xs

end

example : jsonDumps (PyVal.lst [PyVal.str "a", PyVal.lst [PyVal.str "b", PyVal.str "c"]])
    = "[\"a\", [\"b\", \"c\"]]" := by decide

/-! ## Tabular projector (hl7v2_parser.convert_to_parquet_tables) -/

/-- hl7v2_parser.serialize_field: lists are serialized with json.dumps,
every other value is returned unchanged.  The dict arm of the Python
isinstance test has no counterpart because PyVal has no dictionaries. -/
def serialize_field (v : PyVal) : PyVal :=
  match v with
  | .lst l => PyVal.str (jsonDumps (PyVal.lst l))
  | v => v

/-- One projected row: the correlation key column and the serialized cells
keyed by segment-position. -/
structure Row where
  message_control_id : PyVal
  cells : List (String × PyVal)
deriving DecidableEq

/-- The per-segment-name row sets, in first-insertion key order. -/
abbrev Tables := List (String × List Row)

/-- The `if isinstance(entries, dict): entries = [entries]` normalization. -/
def entriesList : SegEntry → List SegData
  | .single d => [d]
  | .multiple ds => ds

/-- Build one row from one segment occurrence. -/
def entryToRow (mid : PyVal) (segment : String) (entry : SegData) : Row :=
  { message_control_id := mid,
    cells := entry.map (fun p => (segment ++ "-" ++ p.1, serialize_field p.2)) }

/-- The correlation key extraction msg.get("MSH", {}).get("10", ""): empty
string when the header segment or its field "10" is absent; when the header
name maps to a list of occurrences the attribute lookup .get on a Python
list raises AttributeError. -/
def getMessageId (m : Message) : Except String PyVal :=
  match List.lookup "MSH" m with
  | Option.none => Except.ok (PyVal.str "")
  | Option.some (SegEntry.single d) =>
      Except.ok ((List.lookup "10" d).getD (PyVal.str ""))
  | Option.some (SegEntry.multiple _) => Except.error "AttributeError"

/-- defaultdict(list) row append under a segment name. -/
def addRows (t : Tables) (name : String) (rs : List Row) : Tables :=
  addGroup t name rs

/-- The body of the `for msg in parsed_messages` loop: extract the
correlation key, then append one row per occurrence of every segment name
recognized by the schema, skipping the others. -/
def projectMessage (schema : List String) (t : Tables) (m : Message) :
    Except String Tables := do
  let mid ← getMessageId m
  pure (m.foldl (fun acc p =>
    if p.1 ∈ schema then
      addRows acc p.1 ((entriesList p.2).map (entryToRow mid p.1))
    else acc) t)

/-- hl7v2_parser.convert_to_parquet_tables over a list of assembled
messages and the recognized segment-name schema. -/
def convert_to_parquet_tables (msgs : List Message) (schema : List String) :
    Except String Tables :=
  msgs.foldlM (projectMessage schema) []

example :
    convert_to_parquet_tables
      [[("MSH", SegEntry.single [("10", PyVal.str "MSG1")]),
        ("PID", SegEntry.single [("3", PyVal.str "x")]),
        ("ZZZ", SegEntry.single [("1", PyVal.str "z")])]]
      ["MSH", "PID"] =
    Except.ok
      [("MSH", [{ message_control_id := PyVal.str "MSG1",
                  cells := [("MSH-10", PyVal.str "MSG1")] }]),
       ("PID", [{ message_control_id := PyVal.str "MSG1",
                  cells := [("PID-3", PyVal.str "x")] }])] := by decide

/-! ## Python str() and repr() of PyVal values

flatten_value calls Python str() on items; for a nested list that is the
list repr.  repr is modelled for the shapes reachable here: strings with
quote choice and basic escapes, integers, booleans, None, nested lists.
Unicode printability classes beyond ASCII are not modelled. -/

/-- One character of a Python string repr body, for the chosen quote q. -/
def pyReprEscChar (q : Char) (c : Char) : List Char :=
  if c = '\\' then ['\\', '\\']
  else if c = q then ['\\', q]
  else if c = '\n' then ['\\', 'n']
  else if c = '\r' then ['\\', 'r']
  else if c = '\t' then ['\\', 't']
  else if c.val < 32 || c.val = 127 then
    ['\\', 'x', hexDigit (c.val.toNat / 16 % 16), hexDigit (c.val.toNat % 16)]
  else [c]

/-- Python repr of a string: single quotes, or double quotes when the text
holds a single quote but no double quote. -/
def pyReprString (s : String) : String :=
  let q := if ('\'' ∈ s.data) && !('"' ∈ s.data) then '"' else '\''
  (⟨q :: (s.data.map (pyReprEscChar q)).flatten ++ [q]⟩ : String)

mutual

/-- Python repr of a PyVal. -/
def pyRepr : PyVal → String
  | .str s => pyReprString s
  | .int n => toString n
  | .bool b => if b then "True" else "False"
  | .null => "None"
  | .lst l => "[" ++ pyReprList l ++ "]"

/-- Comma-space separated reprs of list elements. -/
def pyReprList : List PyVal → String
  | [] => ""
  | [x] => pyRepr x
  | x :: xs => pyRepr x ++ ", " ++ pyReprList xs

end

/-- Python str() of a PyVal: the string itself for strings, repr otherwise
(str and repr agree on integers, booleans, None and lists). -/
def pyStr : PyVal → String
  | .str s => s
  | v => pyRepr v

/-! ## Python json.loads (used by flatten_value on bracket-shaped strings)

A recursive-descent parser for the JSON fragment that can reach
flatten_value: arrays, strings, integers, true/false/null, with JSON
whitespace.  Restrictions of the model, each treated as a parse failure:
numbers with a fraction or exponent (Python would produce a float) and
backslash-u string escapes.  Objects are rejected because PyVal has no
dictionaries. -/

/-- JSON whitespace. -/
def jsonIsWs (c : Char) : Bool := c = ' ' || c = '\t' || c = '\n' || c = '\r'

/-- Skip JSON whitespace. -/
def jsonSkipWs : List Char → List Char
  | [] => []
  | c :: cs => if jsonIsWs c then jsonSkipWs cs else c :: cs

/-- Unescape one string escape; backslash-u is not modelled. -/
def jsonUnescape (e : Char) : Option Char :=
  if e = '"' then some '"'
  else if e = '\\' then some '\\'
  else if e = '/' then some '/'
  else if e = 'b' then some (Char.ofNat 8)
  else if e = 'f' then some (Char.ofNat 12)
  else if e = 'n' then some '\n'
  else if e = 'r' then some '\r'
  else if e = 't' then some '\t'
  else Option.none

/-- Parse the body of a JSON string after the opening quote. -/
def jsonParseStringBody : List Char → Option (List Char × List Char)
  | [] => Option.none
  | '"' :: rest => some ([], rest)
  | '\\' :: e :: rest =>
    match jsonUnescape e with
    | Option.none => Option.none
    | some c =>
      match jsonParseStringBody rest with
      | Option.none => Option.none
      | some (s, r) => some (c :: s, r)
  | c :: rest =>
    if c.val < 32 then Option.none
    else
      match jsonParseStringBody rest with
      | Option.none => Option.none
      | some (s, r) => some (c :: s, r)

/-- Decimal value of a digit run. -/
def digitsToNat (ds : List Char) : Nat :=
  ds.foldl (fun a c => a * 10 + (c.toNat - 48)) 0

/-- Parse a JSON number restricted to integers: an optional minus sign and
a digit run without a leading zero; a following dot or exponent marker
(a float in Python) makes the model reject the input. -/
def jsonParseNumber (cs : List Char) : Option (Int × List Char) :=
  let signed := match cs with
    | '-' :: r => (true, r)
    | _ => (false, cs)
  match signed with
  | (neg, cs1) =>
    let ds := cs1.takeWhile Char.isDigit
    let rest := cs1.dropWhile Char.isDigit
    if ds = [] then Option.none
    else if 2 ≤ ds.length && ds.headD '0' = '0' then Option.none
    else
      match rest with
      | '.' :: _ => Option.none
      | 'e' :: _ => Option.none
      | 'E' :: _ => Option.none
      | _ =>
        let n : Int := Int.ofNat (digitsToNat ds)
        some (if neg then -n else n, rest)

mutual

/-- Parse one JSON value at the head of the character list, fueled. -/
def jsonParseValue : Nat → List Char → Option (PyVal × List Char)
  | 0, _ => Option.none
  | fuel + 1, cs =>
    match jsonSkipWs cs with
    | '[' :: rest =>
      (match jsonSkipWs rest with
       | ']' :: r2 => some (PyVal.lst [], r2)
       | cs2 =>
         match jsonParseItems fuel cs2 with
         | Option.none => Option.none
         | some (vs, r) => some (PyVal.lst vs, r))
    | '"' :: rest =>
      (match jsonParseStringBody rest with
       | Option.none => Option.none
       | some (s, r) => some (PyVal.str (⟨s⟩ : String), r))
    | 't' :: 'r' :: 'u' :: 'e' :: rest => some (PyVal.bool true, rest)
    | 'f' :: 'a' :: 'l' :: 's' :: 'e' :: rest => some (PyVal.bool false, rest)
    | 'n' :: 'u' :: 'l' :: 'l' :: rest => some (PyVal.null, rest)
    | cs' =>
      match jsonParseNumber cs' with
      | Option.none => Option.none
      | some (n, r) => some (PyVal.int n, r)

/-- Parse the comma-separated items of a non-empty JSON array up to the
closing bracket, fueled. -/
def jsonParseItems : Nat → List Char → Option (List PyVal × List Char)
  | 0, _ => Option.none
  | fuel + 1, cs =>
    match jsonParseValue fuel cs with
    | Option.none => Option.none
    | some (v, r) =>
      match jsonSkipWs r with
      | ',' :: r2 =>
        (match jsonParseItems fuel r2 with
         | Option.none => Option.none
         | some (vs, r3) => some (v :: vs, r3))
      | ']' :: r2 => some ([v], r2)
      | _ => Option.none

end

/-- Python json.loads on the modelled fragment: parse one value and require
only whitespace after it. -/
def jsonLoads (s : String) : Option PyVal :=
  match jsonParseValue (s.data.length + 1) s.data with
  | some (v, rest) => if jsonSkipWs rest = [] then some v else Option.none
  | Option.none => Option.none

example : jsonLoads "[\"ICU\", \"101\"]"
    = some (PyVal.lst [PyVal.str "ICU", PyVal.str "101"]) := by decide
example : jsonLoads "[1, -2, []]"
    = some (PyVal.lst [PyVal.int 1, PyVal.int (-2), PyVal.lst []]) := by decide
example : jsonLoads "[abc]" = Option.none := by decide
example : jsonLoads "[" = Option.none := by decide

/-! ## Display rendering (generate_hl7v2_specification.flatten_value and
format_value_list) -/

/-- The bracket test of flatten_value:
value.strip().startswith('[') and value.strip().endswith(']'). -/
def isBracketed (s : String) : Bool :=
  match pyStripChars s.data with
  | [] => false
  | c :: cs => c = '[' && (c :: cs).getLast (by simp) = ']'

/-- One sub-item inside a nested list: a triple-nested list is joined with
the sub-component separator, anything else is stringified. -/
def flatten_sub (subitem : PyVal) : String :=
  match subitem with
  | .lst l => "&".intercalate (l.map pyStr)
  | v => pyStr v

/-- One top-level item: a nested list is joined with the sub-component
separator, anything else is stringified. -/
def flatten_item (item : PyVal) : String :=
  match item with
  | .lst l => "&".intercalate (l.map flatten_sub)
  | v => pyStr v

/-- The list branch of flatten_value: items joined with the component
separator. -/
def flatten_list (l : List PyVal) : String :=
  "^".intercalate (l.map flatten_item)

/-- generate_hl7v2_specification.flatten_value: a string that looks like a
JSON array is parsed first (returned unchanged when parsing fails), other
strings are returned unchanged; a list is joined with the component and
sub-component separators; any other value is stringified (the empty-string
guard of the source is kept although it changes nothing for strings). -/
def flatten_value (value : PyVal) : String :=
  match value with
  | .str s =>
    if isBracketed s then
      match jsonLoads s with
      | Option.none => s
      | some v =>
        match v with
        | .lst l => flatten_list l
        | v => if v = PyVal.str "" then "" else pyStr v
    else s
  | .lst l => flatten_list l
  | v => if v = PyVal.str "" then "" else pyStr v

/-- generate_hl7v2_specification.format_value_list: wrap a non-list value
into a one-element list (None into the empty list), flatten every element,
keep the non-empty results and join them with comma-space. -/
def format_value_list (value_list : PyVal) : String :=
  let items : List PyVal :=
    match value_list with
    | .lst l => l
    | .null => []
    | v => [v]
  ", ".intercalate ((items.map flatten_value).filter (fun s => s ≠ ""))

example : flatten_value (PyVal.str "HospitalA") = "HospitalA" := by decide
example : flatten_value (PyVal.str "[\"ICU\", \"101\"]") = "ICU^101" := by decide
example : flatten_value (PyVal.str "[abc]") = "[abc]" := by decide
example : flatten_value (PyVal.lst [PyVal.str "LN", PyVal.str "GLU"]) = "LN^GLU" := by decide
example : flatten_value (PyVal.lst [PyVal.lst [PyVal.str "a", PyVal.str "b"], PyVal.str "c"])
    = "a&b^c" := by decide
example : format_value_list (PyVal.lst [PyVal.str "a", PyVal.str "", PyVal.str "b"])
    = "a, b" := by decide

/-! ## Helper lemmas about the embedded primitives -/

/-- Whether an Except computation succeeded (Python: no exception raised). -/
def exceptOk {ε α : Type} : Except ε α → Bool
  | Except.ok _ => true
  | Except.error _ => false

theorem stringMk_data (s : String) : (⟨s.data⟩ : String) = s := rfl

theorem pySplit_ne_nil (sep : Char) (s : String) : pySplit sep s ≠ [] := by
  unfold pySplit
  intro h
  exact pySplitPred_ne_nil _ s.data (List.map_eq_nil_iff.mp h)

theorem pySplit_eq_single (sep : Char) (s : String) (h : sep ∉ s.data) :
    pySplit sep s = [s] := by
  unfold pySplit
  rw [pySplitPred_eq_single]
  · simp [stringMk_data]
  · intro c hc
    simp only [decide_eq_false_iff_not]
    intro he
    exact h (he ▸ hc)

theorem pySplit_single (sep : Char) (u m : String) (h : pySplit sep u = [m]) :
    m = u := by
  unfold pySplit at h
  cases e : pySplitPred (fun c => decide (c = sep)) u.data with
  | nil => exact absurd e (pySplitPred_ne_nil _ _)
  | cons h0 t0 =>
    rw [e] at h
    cases t0 with
    | cons _ _ => simp at h
    | nil =>
      simp at h
      have := pySplitPred_single _ _ _ e
      have hd : m.data = u.data := by rw [← h, this]
      cases m; cases u; simp_all

theorem pySplit_two_le (sep : Char) (s : String) (h : sep ∈ s.data) :
    2 ≤ (pySplit sep s).length := by
  unfold pySplit
  rw [List.length_map]
  exact pySplitPred_two_le _ _ sep h (by simp)


/-- Splitting text-then-separator: the separator-free text and one empty
trailing chunk. -/
theorem pySplitPred_append_sep (p : Char → Bool) (l : List Char) (c : Char)
    (hl : ∀ a ∈ l, p a = false) (hc : p c = true) :
    pySplitPred p (l ++ [c]) = [l, []] := by
  induction l with
  | nil => simp [pySplitPred, hc]
  | cons a as ih =>
    have ha : p a = false := hl a (by simp)
    have ih' := ih (fun x hx => hl x (by simp [hx]))
    show pySplitPred p (a :: (as ++ [c])) = [a :: as, []]
    simp only [pySplitPred]
    rw [ih']
    simp [ha]

theorem lookup_isSome_iff {β : Type} (l : List (String × β)) (k : String) :
    (List.lookup k l).isSome = true ↔ ∃ p ∈ l, p.1 = k := by
  induction l with
  | nil => simp
  | cons p rest ih =>
    obtain ⟨k0, v0⟩ := p
    by_cases hk : k = k0
    · subst hk
      simp [List.lookup_cons]
    · simp only [List.lookup_cons, beq_false_of_ne hk]
      simp only [List.mem_cons, ih]
      constructor
      · rintro ⟨q, hq, hq1⟩
        exact ⟨q, Or.inr hq, hq1⟩
      · rintro ⟨q, hq | hq, hq1⟩
        · rw [hq] at hq1
          exact absurd hq1.symm hk
        · exact ⟨q, hq, hq1⟩

theorem lookup_addGroup {β : Type} (m : List (String × List β)) (n k : String)
    (ds : List β) :
    List.lookup k (addGroup m n ds) =
      if k = n then some (((List.lookup n m).getD []) ++ ds)
      else List.lookup k m := by
  induction m with
  | nil =>
    by_cases hk : k = n
    · subst hk
      simp [addGroup, List.lookup_cons]
    · simp [addGroup, List.lookup_cons, beq_false_of_ne hk, hk]
  | cons q rest ih =>
    obtain ⟨k0, ex⟩ := q
    by_cases h0 : k0 = n
    · subst h0
      rw [show addGroup ((k0, ex) :: rest) k0 ds = (k0, ex ++ ds) :: rest from by
        simp [addGroup]]
      by_cases hk : k = k0
      · subst hk
        simp [List.lookup_cons]
      · simp [List.lookup_cons, beq_false_of_ne hk, hk]
    · rw [show addGroup ((k0, ex) :: rest) n ds = (k0, ex) :: addGroup rest n ds from by
        simp [addGroup, h0]]
      by_cases hk : k = k0
      · subst hk
        simp [List.lookup_cons, h0]
      · simp only [List.lookup_cons, beq_false_of_ne hk]
        rw [ih]
        by_cases hkn : k = n
        · subst hkn
          rw [if_pos rfl, if_pos rfl]
          simp [List.lookup_cons, beq_false_of_ne hk]
        · rw [if_neg hkn, if_neg hkn]

/-- Position keys assigned by numberFields: exactly the non-empty tokens,
keyed by the decimal of start plus their index. -/
theorem numberFields_mem_iff (start : Nat) (fields : List String) (k : String)
    (v : PyVal) :
    (k, v) ∈ numberFields start fields ↔
      ∃ i, ∃ h : i < fields.length,
        k = toString (start + i) ∧ fields.get ⟨i, h⟩ ≠ ""
          ∧ v = parse_field (fields.get ⟨i, h⟩) := by
  induction fields generalizing start with
  | nil => simp [numberFields]
  | cons f rest ih =>
    simp only [numberFields, List.mem_append, ih]
    constructor
    · rintro (h1 | ⟨i, hi, hk, hne, hv⟩)
      · by_cases hf : f = ""
        · simp [hf] at h1
        · simp [hf] at h1
          exact ⟨0, by simp, by simpa using h1.1, by simpa using hf, by simpa using h1.2⟩
      · exact ⟨i + 1, by simpa using Nat.succ_lt_succ hi,
          by rw [hk]; congr 1; omega, by simpa using hne, by simpa using hv⟩
    · rintro ⟨i, hi, hk, hne, hv⟩
      cases i with
      | zero =>
        left
        have hf : f ≠ "" := by simpa using hne
        simp [hf]
        exact ⟨by simpa using hk, by simpa using hv⟩
      | succ j =>
        right
        refine ⟨j, by simpa using Nat.lt_of_succ_lt_succ hi, ?_, by simpa using hne,
          by simpa using hv⟩
        rw [hk]; congr 1; omega

/-! ## Decoder structure lemmas -/

theorem parse_comp_of_no_sub (s : String) (h : '&' ∉ s.data) :
    parse_comp s = PyVal.str s := by
  simp [parse_comp, h]

theorem parse_comps_of_no_comp (s : String) (h : '^' ∉ s.data) :
    parse_comps s = [parse_comp s] := by
  simp [parse_comps, pySplit_eq_single '^' s h]

theorem parse_field_single_rep (s : String) (h : '~' ∉ s.data) :
    parse_field s =
      match parse_comps s with
      | [x] => x
      | cl => PyVal.lst cl := by
  unfold parse_field
  rw [pySplit_eq_single '~' s h]

theorem parse_field_of_no_seps (s : String) (h1 : '~' ∉ s.data)
    (h2 : '^' ∉ s.data) (h3 : '&' ∉ s.data) : parse_field s = PyVal.str s := by
  rw [parse_field_single_rep s h1, parse_comps_of_no_comp s h2,
    parse_comp_of_no_sub s h3]

theorem parse_field_bare_subcomps (s : String) (h1 : '~' ∉ s.data)
    (h2 : '^' ∉ s.data) (h3 : '&' ∈ s.data) :
    parse_field s = PyVal.lst ((pySplit '&' s).map PyVal.str) := by
  rw [parse_field_single_rep s h1, parse_comps_of_no_comp s h2]
  simp [parse_comp, h3]

/-- C6 (amended).  The field decoder is a total, side-effect-free function
over arbitrary input strings with no error outcome; the empty string
decodes to Scalar("");  a field whose splits yield a single component free
of the sub-component separator decodes to the bare Scalar of that text, not
to a one-element component list (length-1 collapse);  a field whose split
yields a single component that contains the sub-component separator
decodes to the bare sub-component list of that component (still never a
one-element component list), not to a Scalar. -/
theorem C6_decoder_scalar_collapse :
    parse_field "" = PyVal.str ""
    ∧ (∀ s : String, '~' ∉ s.data → '^' ∉ s.data → '&' ∉ s.data →
        parse_field s = PyVal.str s)
    ∧ (∀ s : String, '~' ∉ s.data → '^' ∉ s.data → '&' ∈ s.data →
        parse_field s = PyVal.lst ((pySplit '&' s).map PyVal.str)) := by
  refine ⟨by decide, ?_, ?_⟩
  · exact parse_field_of_no_seps
  · exact parse_field_bare_subcomps

/-- C6 witness: the decoder evaluated through the theorem at the concrete
single-component fields "HospitalA" and "LN&GLU". -/
theorem C6_decoder_scalar_collapse_witness :
    parse_field "HospitalA" = PyVal.str "HospitalA"
    ∧ parse_field "LN&GLU" = PyVal.lst [PyVal.str "LN", PyVal.str "GLU"] := by
  constructor
  · exact C6_decoder_scalar_collapse.2.1 "HospitalA"
      (by decide) (by decide) (by decide)
  · rw [C6_decoder_scalar_collapse.2.2 "LN&GLU" (by decide) (by decide) (by decide)]
    decide

/-- C6 counterexample: "LN&GLU" splits into a single component, but it does
not decode to the bare Scalar of that text; the collapse returns the bare
sub-component list instead. -/
theorem C6_single_component_not_scalar :
    (pySplit '^' "LN&GLU").length = 1
    ∧ (pySplit '~' "LN&GLU").length = 1
    ∧ parse_field "LN&GLU" ≠ PyVal.str "LN&GLU" := by decide

/-- C2 (amended).  For every raw field string containing at least one
repetition separator, decode returns the repetition list whose i-th element
is the full component-list parse of the i-th chunk with NO length-1
collapse applied inside the repetition: a chunk with no component separator
yields a one-element component list, not a bare Scalar.  The outer
repetition list itself is never collapsed. -/
theorem C2_repetition_decode :
    (∀ field : String, '~' ∈ field.data →
      parse_field field =
        PyVal.lst ((pySplit '~' field).map (fun r => PyVal.lst (parse_comps r))))
    ∧ (∀ r : String, '^' ∉ r.data → '&' ∉ r.data →
        parse_comps r = [PyVal.str r]) := by
  constructor
  · intro field h
    have h2 : 2 ≤ (pySplit '~' field).length := pySplit_two_le '~' field h
    unfold parse_field
    cases e : pySplit '~' field with
    | nil => rfl
    | cons a t =>
      cases t with
      | nil => rw [e] at h2; simp at h2
      | cons b t2 => rfl
  · intro r h1 h2
    rw [parse_comps_of_no_comp r h1, parse_comp_of_no_sub r h2]

/-- C2 witness: the theorem evaluated at the repeated field
"ICU^101~ER^102" and at the chunk "ER". -/
theorem C2_repetition_decode_witness :
    parse_field "ICU^101~ER^102" =
      PyVal.lst [PyVal.lst [PyVal.str "ICU", PyVal.str "101"],
                 PyVal.lst [PyVal.str "ER", PyVal.str "102"]]
    ∧ parse_comps "ER" = [PyVal.str "ER"] := by
  constructor
  · rw [C2_repetition_decode.1 "ICU^101~ER^102" (by decide)]
    decide
  · exact C2_repetition_decode.2 "ER" (by decide) (by decide)

/-- C2 counterexample: inside a repetition the length-1 collapse is NOT
applied, so the first element of decode("a~b") differs from decoding the
chunk "a" on its own. -/
theorem C2_inner_collapse_missing :
    parse_field "a~b"
      = PyVal.lst [PyVal.lst [PyVal.str "a"], PyVal.lst [PyVal.str "b"]]
    ∧ parse_field "a" = PyVal.str "a"
    ∧ PyVal.lst [PyVal.str "a"] ≠ parse_field "a" := by decide

/-- C1.  The round-trip law fails on the code: decoding collapses a single
component holding sub-component separators to a bare Python list, which the
display encoder flatten_value re-joins with the component separator, so
encode(decode("LN&GLU&1234")) is "LN^GLU^1234", not the original text; the
repetition-level rendering format_value_list joins repetitions with
comma-space, not the repetition separator; and decode is not even
injective on separator-structural texts ("a&b^c&d" and "a^b~c^d" decode to
the same value), so no encoder over the decoded values can satisfy the law. -/
theorem C1_roundtrip_fails :
    flatten_value (parse_field "LN&GLU&1234") = "LN^GLU^1234"
    ∧ "LN^GLU^1234" ≠ "LN&GLU&1234"
    ∧ format_value_list (parse_field "ICU^101~ER^102") = "ICU^101, ER^102"
    ∧ parse_field "a&b^c&d" = parse_field "a^b~c^d"
    ∧ "a&b^c&d" ≠ "a^b~c^d" := by decide

/-- C10.  The display rendering function does not return every string input
verbatim: a string that, after stripping, begins with the opening bracket
and ends with the closing bracket and parses as JSON is parsed into a list
and re-joined with the component separator (sub-component separator for
nested lists) instead of being returned; when JSON parsing fails, and when
the bracket test fails, the string is returned unchanged. -/
theorem C10_flatten_parses_json_strings :
    (flatten_value (PyVal.str "[\"ICU\", \"101\"]") = "ICU^101"
      ∧ "ICU^101" ≠ "[\"ICU\", \"101\"]")
    ∧ (∀ s l, isBracketed s = true → jsonLoads s = some (PyVal.lst l) →
        flatten_value (PyVal.str s) = flatten_list l)
    ∧ (∀ s, isBracketed s = true → jsonLoads s = Option.none →
        flatten_value (PyVal.str s) = s)
    ∧ (∀ s, isBracketed s = false → flatten_value (PyVal.str s) = s) := by
  refine ⟨by decide, ?_, ?_, ?_⟩
  · intro s l hb hj
    simp [flatten_value, hb, hj]
  · intro s hb hj
    simp [flatten_value, hb, hj]
  · intro s hb
    simp [flatten_value, hb]

/-- C10 witness: the theorem applied at a nested JSON array string, at a
bracket-shaped string that is not JSON, and at a plain string. -/
theorem C10_flatten_parses_json_strings_witness :
    flatten_value (PyVal.str "[[\"LN\", \"GLU\"], \"X\"]") = "LN&GLU^X"
    ∧ flatten_value (PyVal.str "[abc]") = "[abc]"
    ∧ flatten_value (PyVal.str "HospitalA") = "HospitalA" := by
  refine ⟨?_, ?_, ?_⟩
  · rw [C10_flatten_parses_json_strings.2.1 "[[\"LN\", \"GLU\"], \"X\"]"
      [PyVal.lst [PyVal.str "LN", PyVal.str "GLU"], PyVal.str "X"]
      (by decide) (by decide)]
    decide
  · exact C10_flatten_parses_json_strings.2.2.1 "[abc]" (by decide) (by decide)
  · exact C10_flatten_parses_json_strings.2.2.2 "HospitalA" (by decide)

/-- C7.  Every message returned by the splitter starts with the header
token (re-prefixed when the split consumed it), and an input blob that is
empty or holds only whitespace yields the empty sequence. -/
theorem C7_message_splitting :
    (∀ raw : String, ∀ m ∈ split_hl7_messages raw, pyStartsWith "MSH|" m = true)
    ∧ (∀ raw : String, (∀ c ∈ raw.data, pyIsSpace c = true) →
        split_hl7_messages raw = []) := by
  constructor
  · intro raw m hm
    unfold split_hl7_messages at hm
    simp only [List.mem_map, List.mem_filter] at hm
    obtain ⟨c, _, hc⟩ := hm
    by_cases hp : pyStartsWith "MSH|" c = true
    · rw [← hc]; simp [hp]
    · rw [← hc, if_neg hp]
      unfold pyStartsWith
      rw [String.data_append]
      simp [List.isPrefixOf_iff_prefix]
  · intro raw h
    have h0 : pyStrip raw = "" := pyStrip_of_all_space raw h
    have h1 : pyStripChars raw.data = [] := congrArg String.data h0
    unfold split_hl7_messages
    rw [h1]
    rw [show splitMSHChars [] = [[]] from rfl]
    decide

/-- C7 witness: the theorem applied at a blob without a leading header
token and at a whitespace-only blob. -/
theorem C7_message_splitting_witness :
    pyStartsWith "MSH|" "MSH|PID|floating" = true
    ∧ split_hl7_messages "  \n " = [] := by
  constructor
  · exact C7_message_splitting.1 "PID|floating" "MSH|PID|floating" (by decide)
  · exact C7_message_splitting.2 "  \n " (by decide)

/-! ## Assembler claims -/

/-- C3.  For every header segment line the assembler stores the field
separator under position key "1", the raw token after the segment name
verbatim (undecoded) under position key "2", and numbers the remaining
tokens from 3; every other segment line numbers its tokens from 1; the
numbering keys are the decimals of the offset plus the token index, with
empty tokens omitted and non-empty ones decoded by parse_field. -/
theorem C3_header_offset :
    (∀ s p1 rest, pySplit '|' (pyStrip s) = "MSH" :: p1 :: rest →
      parseSegLine s = Except.ok ("MSH",
        ("1", PyVal.str "|") :: ("2", PyVal.str p1) :: numberFields 3 rest))
    ∧ (∀ s name rest, pySplit '|' (pyStrip s) = name :: rest → name ≠ "MSH" →
      parseSegLine s = Except.ok (name, numberFields 1 rest))
    ∧ (∀ start fields k v, (k, v) ∈ numberFields start fields ↔
        ∃ i, ∃ h : i < fields.length, k = toString (start + i)
          ∧ fields.get ⟨i, h⟩ ≠ "" ∧ v = parse_field (fields.get ⟨i, h⟩)) := by
  refine ⟨?_, ?_, ?_⟩
  · intro s p1 rest h
    unfold parseSegLine
    rw [h]
    simp
  · intro s name rest h hn
    unfold parseSegLine
    rw [h]
    simp [hn]
  · exact numberFields_mem_iff

/-- C3 witness: the theorem applied at the header line from the spec and at
a patient-identification line; position "3" holds the decoded third token. -/
theorem C3_header_offset_witness :
    parseSegLine "MSH|^~\\&|SendApp|SendFac" = Except.ok ("MSH",
      [("1", PyVal.str "|"), ("2", PyVal.str "^~\\&"),
       ("3", PyVal.str "SendApp"), ("4", PyVal.str "SendFac")])
    ∧ parseSegLine "PID|123" = Except.ok ("PID", [("1", PyVal.str "123")])
    ∧ ("3", PyVal.str "SendApp") ∈ numberFields 3 ["SendApp", "SendFac"] := by
  refine ⟨?_, ?_, ?_⟩
  · rw [C3_header_offset.1 "MSH|^~\\&|SendApp|SendFac" "^~\\&" ["SendApp", "SendFac"]
      (by decide)]
    decide
  · rw [C3_header_offset.2.1 "PID|123" "PID" ["123"] (by decide) (by decide)]
    decide
  · exact (C3_header_offset.2.2 3 ["SendApp", "SendFac"] "3" (PyVal.str "SendApp")).mpr
      ⟨0, by decide, by decide, by decide, by decide⟩

theorem parseSegLine_ok (s : String) (h : pyStrip s ≠ "MSH") :
    ∃ r, parseSegLine s = Except.ok r := by
  unfold parseSegLine
  cases e : pySplit '|' (pyStrip s) with
  | nil => exact absurd e (pySplit_ne_nil '|' (pyStrip s))
  | cons n rest =>
    by_cases hn : n = "MSH"
    · subst hn
      cases rest with
      | nil =>
        have := pySplit_single '|' (pyStrip s) "MSH" e
        exact absurd this.symm h
      | cons p1 fields =>
        exact ⟨("MSH", ("1", PyVal.str "|") :: ("2", PyVal.str p1) ::
          numberFields 3 fields), by simp⟩
    · exact ⟨(n, numberFields 1 rest), by simp [hn]⟩

theorem mapM_parseSegLine_ok (lines : List String)
    (h : ∀ s ∈ lines, pyStrip s ≠ "MSH") :
    ∃ rs, lines.mapM parseSegLine = Except.ok rs := by
  induction lines with
  | nil => exact ⟨[], rfl⟩
  | cons a rest ih =>
    obtain ⟨r, hr⟩ := parseSegLine_ok a (h a (by simp))
    obtain ⟨rs, hrs⟩ := ih (fun s hs => h s (by simp [hs]))
    refine ⟨r :: rs, ?_⟩
    rw [List.mapM_cons, hr, hrs]
    rfl

/-- C4 (amended).  The assembler never raises on any sequence of segment
lines in which no stripped line is exactly the bare header name "MSH":
short lines, lines with an empty segment name, and name-plus-separator
lines are all tolerated, with missing positions absent and a non-header
name-plus-separator line yielding an empty field mapping.  (A stripped
line that is exactly "MSH" raises an IndexError, see the counterexample.) -/
theorem C4_assembler_totality :
    (∀ msg : String, (∀ line ∈ getSegments msg, pyStrip line ≠ "MSH") →
      exceptOk (hl7_to_custom_json msg) = true)
    ∧ (∀ name : String, '|' ∉ name.data → pyStrip (name ++ "|") = name ++ "|" →
        name ≠ "MSH" →
        parseSegLine (name ++ "|") = Except.ok (name, [])) := by
  constructor
  · intro msg h
    unfold hl7_to_custom_json parsedLines
    obtain ⟨rs, hrs⟩ := mapM_parseSegLine_ok
      ((getSegments msg).filter (fun s => pyStrip s ≠ ""))
      (fun s hs => h s (List.mem_of_mem_filter hs))
    rw [hrs]
    rfl
  · intro name h1 h2 h3
    have e : pySplit '|' (pyStrip (name ++ "|")) = [name, ""] := by
      rw [h2]
      unfold pySplit
      rw [String.data_append]
      rw [show ("|" : String).data = ['|'] from rfl]
      rw [pySplitPred_append_sep _ _ _ ?_ (by simp)]
      · rfl
      · intro a ha
        simp only [decide_eq_false_iff_not]
        intro he
        exact h1 (he ▸ ha)
    unfold parseSegLine
    rw [e]
    simp [h3, numberFields]

/-- C4 counterexample: a line consisting of only the segment name "MSH"
makes assembly raise an IndexError instead of tolerating the short line. -/
theorem C4_bare_header_line_raises :
    hl7_to_custom_json "MSH" = Except.error "IndexError"
    ∧ hl7_to_custom_json "MSH|^~\\&|App\rMSH" = Except.error "IndexError" := by
  decide

/-- C4 witness: the theorem applied at a message with short, blank and
empty-name lines, and at the name-plus-separator line "PID|". -/
theorem C4_assembler_totality_witness :
    exceptOk (hl7_to_custom_json "MSH|^~\\&|App\rPID\r\r|x\rOBX|") = true
    ∧ parseSegLine ("PID" ++ "|") = Except.ok ("PID", []) := by
  constructor
  · exact C4_assembler_totality.1 "MSH|^~\\&|App\rPID\r\r|x\rOBX|" (by decide)
  · exact C4_assembler_totality.2 "PID" (by decide) (by decide) (by decide)

/-- The occurrences of one segment name among the parsed lines, in
encounter order. -/
def occsOf (ps : List (String × SegData)) (name : String) : List SegData :=
  (ps.filter (fun p => p.1 == name)).map Prod.snd

theorem lookup_foldl_addOcc (ps : List (String × SegData))
    (acc : List (String × List SegData)) (k : String) :
    List.lookup k (ps.foldl (fun a p => addOcc a p.1 p.2) acc) =
      match List.lookup k acc with
      | some ex => some (ex ++ occsOf ps k)
      | Option.none =>
        if occsOf ps k = [] then Option.none else some (occsOf ps k) := by
  induction ps generalizing acc with
  | nil =>
    cases h : List.lookup k acc <;> simp [occsOf, h]
  | cons p rest ih =>
    rw [List.foldl_cons, ih]
    unfold addOcc
    rw [lookup_addGroup]
    by_cases hk : k = p.1
    · rw [if_pos hk]
      have hocc : occsOf (p :: rest) k = p.2 :: occsOf rest k := by
        simp [occsOf, List.filter_cons, hk.symm]
      rw [hocc, ← hk]
      cases h : List.lookup k acc with
      | none => simp
      | some ex => simp
    · rw [if_neg hk]
      have hocc : occsOf (p :: rest) k = occsOf rest k := by
        have : ¬ p.1 = k := fun he => hk he.symm
        simp [occsOf, List.filter_cons, this]
      rw [hocc]

theorem lookup_collapseMsg (m : List (String × List SegData)) (k : String) :
    List.lookup k (collapseMsg m) =
      (List.lookup k m).map (fun ds =>
        match ds with
        | [d] => SegEntry.single d
        | ds => SegEntry.multiple ds) := by
  induction m with
  | nil => rfl
  | cons p rest ih =>
    obtain ⟨k0, ds⟩ := p
    by_cases hk : k = k0
    · subst hk
      simp [collapseMsg, List.lookup_cons]
    · rw [show collapseMsg ((k0, ds) :: rest) =
        (k0, match ds with
             | [d] => SegEntry.single d
             | ds => SegEntry.multiple ds) :: collapseMsg rest from rfl]
      simp [List.lookup_cons, beq_false_of_ne hk, ih]

/-- The assembled entry under one name, by occurrence count. -/
theorem lookup_assemble (ps : List (String × SegData)) (name : String) :
    List.lookup name (assemble ps) =
      match occsOf ps name with
      | [] => Option.none
      | [d] => some (SegEntry.single d)
      | ds => some (SegEntry.multiple ds) := by
  unfold assemble
  rw [lookup_collapseMsg, lookup_foldl_addOcc]
  rw [show List.lookup name ([] : List (String × List SegData)) = Option.none
    from rfl]
  cases h : occsOf ps name with
  | nil => simp
  | cons d t =>
    cases t with
    | nil => simp
    | cons e t2 => simp

/-- C5.  In every assembled message, a segment name with exactly one
occurrence among the parsed lines maps to a bare Segment, one with two or
more occurrences maps to the ordered list of its occurrences in encounter
order, and an absent name is absent from the message. -/
theorem C5_cardinality_collapse :
    ∀ msg ps name, parsedLines msg = Except.ok ps →
      hl7_to_custom_json msg = Except.ok (assemble ps)
      ∧ (∀ d, occsOf ps name = [d] →
          List.lookup name (assemble ps) = some (SegEntry.single d))
      ∧ (2 ≤ (occsOf ps name).length →
          List.lookup name (assemble ps)
            = some (SegEntry.multiple (occsOf ps name)))
      ∧ (occsOf ps name = [] →
          List.lookup name (assemble ps) = Option.none) := by
  intro msg ps name h
  refine ⟨?_, ?_, ?_, ?_⟩
  · unfold hl7_to_custom_json
    rw [h]
    rfl
  · intro d hd
    rw [lookup_assemble, hd]
  · intro h2
    rw [lookup_assemble]
    cases e : occsOf ps name with
    | nil =>
      rw [e] at h2
      simp at h2
    | cons a t =>
      cases t with
      | nil =>
        rw [e] at h2
        simp at h2
      | cons b t2 => rfl
  · intro h0
    rw [lookup_assemble, h0]

/-- C5 witness: a fixture with one PID line and two OBX lines, checked
through the theorem for the one-occurrence, two-occurrence and absent
shapes. -/
theorem C5_cardinality_collapse_witness :
    hl7_to_custom_json "MSH|^~\\&|A\rPID|1\rOBX|1\rOBX|2" =
      Except.ok (assemble
        [("MSH", [("1", PyVal.str "|"), ("2", PyVal.str "^~\\&"),
                  ("3", PyVal.str "A")]),
         ("PID", [("1", PyVal.str "1")]),
         ("OBX", [("1", PyVal.str "1")]),
         ("OBX", [("1", PyVal.str "2")])])
    ∧ List.lookup "PID" (assemble
        [("MSH", [("1", PyVal.str "|"), ("2", PyVal.str "^~\\&"),
                  ("3", PyVal.str "A")]),
         ("PID", [("1", PyVal.str "1")]),
         ("OBX", [("1", PyVal.str "1")]),
         ("OBX", [("1", PyVal.str "2")])])
      = some (SegEntry.single [("1", PyVal.str "1")])
    ∧ List.lookup "OBX" (assemble
        [("MSH", [("1", PyVal.str "|"), ("2", PyVal.str "^~\\&"),
                  ("3", PyVal.str "A")]),
         ("PID", [("1", PyVal.str "1")]),
         ("OBX", [("1", PyVal.str "1")]),
         ("OBX", [("1", PyVal.str "2")])])
      = some (SegEntry.multiple [[("1", PyVal.str "1")], [("1", PyVal.str "2")]])
    ∧ List.lookup "ZZZ" (assemble
        [("MSH", [("1", PyVal.str "|"), ("2", PyVal.str "^~\\&"),
                  ("3", PyVal.str "A")]),
         ("PID", [("1", PyVal.str "1")]),
         ("OBX", [("1", PyVal.str "1")]),
         ("OBX", [("1", PyVal.str "2")])])
      = Option.none := by
  have hp : parsedLines "MSH|^~\\&|A\rPID|1\rOBX|1\rOBX|2" =
      Except.ok
        [("MSH", [("1", PyVal.str "|"), ("2", PyVal.str "^~\\&"),
                  ("3", PyVal.str "A")]),
         ("PID", [("1", PyVal.str "1")]),
         ("OBX", [("1", PyVal.str "1")]),
         ("OBX", [("1", PyVal.str "2")])] := by decide
  refine ⟨(C5_cardinality_collapse _ _ "PID" hp).1,
    (C5_cardinality_collapse _ _ "PID" hp).2.1 _ (by decide),
    ?_, (C5_cardinality_collapse _ _ "ZZZ" hp).2.2.2 (by decide)⟩
  have := (C5_cardinality_collapse _ _ "OBX" hp).2.2.1 (by decide)
  rw [this]
  decide

/-! ## Projector claims -/

/-- The assembled message has no multi-occurrence header entry (the shape
on which the Python attribute lookup .get would raise). -/
def headerOk (m : Message) : Prop :=
  ∀ ds, List.lookup "MSH" m ≠ some (SegEntry.multiple ds)

/-- The correlation key of the claim: the value at the header segment's
field position "10", the empty string when the header segment or that
field is absent. -/
def messageKey (m : Message) : PyVal :=
  match List.lookup "MSH" m with
  | some (SegEntry.single d) => (List.lookup "10" d).getD (PyVal.str "")
  | _ => PyVal.str ""

theorem getMessageId_ok (m : Message) (h : headerOk m) :
    getMessageId m = Except.ok (messageKey m) := by
  unfold getMessageId messageKey
  cases e : List.lookup "MSH" m with
  | none => rfl
  | some entry =>
    cases entry with
    | single d => rfl
    | multiple ds => exact absurd e (h ds)

theorem rows_in_addGroup {β : Type} (t : List (String × List β)) (name : String)
    (rs : List β) (P : β → Prop)
    (h1 : ∀ p ∈ t, ∀ r ∈ p.2, P r) (h2 : ∀ r ∈ rs, P r) :
    ∀ p ∈ addGroup t name rs, ∀ r ∈ p.2, P r := by
  induction t with
  | nil =>
    intro p hp
    simp [addGroup] at hp
    rw [hp]
    exact h2
  | cons q rest ih =>
    obtain ⟨k0, ex⟩ := q
    by_cases h0 : k0 = name
    · rw [show addGroup ((k0, ex) :: rest) name rs = (k0, ex ++ rs) :: rest from by
        simp [addGroup, h0]]
      intro p hp
      rcases List.mem_cons.mp hp with rfl | hp'
      · intro r hr
        rcases List.mem_append.mp hr with hr' | hr'
        · exact h1 (k0, ex) (by simp) r hr'
        · exact h2 r hr'
      · exact h1 p (by simp [hp'])
    · rw [show addGroup ((k0, ex) :: rest) name rs
          = (k0, ex) :: addGroup rest name rs from by simp [addGroup, h0]]
      intro p hp
      rcases List.mem_cons.mp hp with rfl | hp'
      · exact h1 (k0, ex) (by simp)
      · exact ih (fun q hq => h1 q (by simp [hq])) p hp'

theorem rows_in_projFold (schema : List String) (mid : PyVal)
    (l : List (String × SegEntry)) (t : Tables)
    (h1 : ∀ p ∈ t, ∀ r ∈ p.2, r.message_control_id = mid) :
    ∀ p ∈ l.foldl (fun acc q =>
        if q.1 ∈ schema then
          addRows acc q.1 ((entriesList q.2).map (entryToRow mid q.1))
        else acc) t,
      ∀ r ∈ p.2, r.message_control_id = mid := by
  induction l generalizing t with
  | nil => exact h1
  | cons q rest ih =>
    rw [List.foldl_cons]
    apply ih
    by_cases hq : q.1 ∈ schema
    · rw [if_pos hq]
      unfold addRows
      apply rows_in_addGroup _ _ _ _ h1
      intro r hr
      simp only [List.mem_map] at hr
      obtain ⟨e, _, he⟩ := hr
      rw [← he]
      rfl
    · rw [if_neg hq]
      exact h1

/-- C8 (amended).  For every assembled message whose header entry is
absent or a single occurrence, projection succeeds, the correlation key is
the value at the header segment's field position "10" (empty string when
the header or that field is absent), and every projected row of every
table carries that same key.  (With a multi-occurrence header entry the
key extraction raises, see the counterexample.) -/
theorem C8_correlation_key (m : Message) (schema : List String)
    (h : headerOk m) :
    ∃ tables, convert_to_parquet_tables [m] schema = Except.ok tables
      ∧ getMessageId m = Except.ok (messageKey m)
      ∧ ∀ p ∈ tables, ∀ r ∈ p.2, r.message_control_id = messageKey m := by
  have hid := getMessageId_ok m h
  have hconv : convert_to_parquet_tables [m] schema =
      Except.ok (m.foldl (fun acc p =>
        if p.1 ∈ schema then
          addRows acc p.1 ((entriesList p.2).map (entryToRow (messageKey m) p.1))
        else acc) []) := by
    unfold convert_to_parquet_tables
    simp only [List.foldlM_cons, List.foldlM_nil, bind_pure]
    rw [show projectMessage schema [] m
        = getMessageId m >>= (fun mid => pure (m.foldl (fun acc p =>
            if p.1 ∈ schema then
              addRows acc p.1 ((entriesList p.2).map (entryToRow mid p.1))
            else acc) [])) from rfl]
    rw [hid]
    rfl
  refine ⟨_, hconv, hid, ?_⟩
  apply rows_in_projFold
  intro p hp
  simp at hp

/-- C8 witness: the theorem applied at a concrete assembled message with a
single header occurrence, one single segment and one repeated segment. -/
theorem C8_correlation_key_witness :
    ∃ tables, convert_to_parquet_tables
        [[("MSH", SegEntry.single [("10", PyVal.str "MSG1")]),
          ("PID", SegEntry.multiple [[("3", PyVal.str "x")],
                                     [("3", PyVal.str "y")]])]]
        ["MSH", "PID"] = Except.ok tables
      ∧ getMessageId
          [("MSH", SegEntry.single [("10", PyVal.str "MSG1")]),
           ("PID", SegEntry.multiple [[("3", PyVal.str "x")],
                                      [("3", PyVal.str "y")]])]
        = Except.ok (messageKey
          [("MSH", SegEntry.single [("10", PyVal.str "MSG1")]),
           ("PID", SegEntry.multiple [[("3", PyVal.str "x")],
                                      [("3", PyVal.str "y")]])])
      ∧ ∀ p ∈ tables, ∀ r ∈ p.2, r.message_control_id = messageKey
          [("MSH", SegEntry.single [("10", PyVal.str "MSG1")]),
           ("PID", SegEntry.multiple [[("3", PyVal.str "x")],
                                      [("3", PyVal.str "y")]])] := by
  apply C8_correlation_key
  intro ds hds
  rw [show List.lookup "MSH"
      [("MSH", SegEntry.single [("10", PyVal.str "MSG1")]),
       ("PID", SegEntry.multiple [[("3", PyVal.str "x")],
                                  [("3", PyVal.str "y")]])]
      = some (SegEntry.single [("10", PyVal.str "MSG1")]) from by decide] at hds
  simp at hds

/-- C8 counterexample: an assembled message carrying two header
occurrences (reachable through the assembler) makes the key extraction
raise an AttributeError instead of producing a correlation key. -/
theorem C8_multiple_header_raises :
    hl7_to_custom_json "MSH|a\rMSH|b" = Except.ok
      [("MSH", SegEntry.multiple
        [[("1", PyVal.str "|"), ("2", PyVal.str "a")],
         [("1", PyVal.str "|"), ("2", PyVal.str "b")]])]
    ∧ convert_to_parquet_tables
        [[("MSH", SegEntry.multiple
          [[("1", PyVal.str "|"), ("2", PyVal.str "a")],
           [("1", PyVal.str "|"), ("2", PyVal.str "b")]])]]
        ["MSH"] = Except.error "AttributeError" := by decide

theorem exceptBindOk {ε α β : Type} (a : α) (f : α → Except ε β) :
    (Except.ok a >>= f) = f a := rfl

theorem exceptBindError {ε α β : Type} (e : ε) (f : α → Except ε β) :
    ((Except.error e : Except ε α) >>= f) = Except.error e := rfl

theorem projectMessage_as_bind (schema : List String) (t : Tables) (m : Message) :
    projectMessage schema t m =
      getMessageId m >>= (fun mid => pure (m.foldl (fun acc p =>
        if p.1 ∈ schema then
          addRows acc p.1 ((entriesList p.2).map (entryToRow mid p.1))
        else acc) t)) := rfl

theorem lookup_proj_foldl (schema : List String) (mid : PyVal)
    (l : List (String × SegEntry)) (t : Tables) (k : String)
    (h : (List.lookup k (l.foldl (fun acc q =>
        if q.1 ∈ schema then
          addRows acc q.1 ((entriesList q.2).map (entryToRow mid q.1))
        else acc) t)).isSome = true) :
    (List.lookup k t).isSome = true ∨ (k ∈ schema ∧ ∃ q ∈ l, q.1 = k) := by
  induction l generalizing t with
  | nil => exact Or.inl h
  | cons q rest ih =>
    rw [List.foldl_cons] at h
    rcases ih _ h with h' | h'
    · by_cases hq : q.1 ∈ schema
      · rw [if_pos hq] at h'
        unfold addRows at h'
        rw [lookup_addGroup] at h'
        by_cases hk : k = q.1
        · exact Or.inr ⟨hk ▸ hq, q, by simp, hk.symm⟩
        · rw [if_neg hk] at h'
          exact Or.inl h'
      · rw [if_neg hq] at h'
        exact Or.inl h'
    · obtain ⟨hs, q', hq', he⟩ := h'
      exact Or.inr ⟨hs, q', by simp [hq'], he⟩

theorem projectMessage_lookup (schema : List String) (t : Tables) (m : Message)
    (res : Tables) (k : String)
    (h : projectMessage schema t m = Except.ok res)
    (hk : (List.lookup k res).isSome = true) :
    (List.lookup k t).isSome = true ∨ (k ∈ schema ∧ ∃ q ∈ m, q.1 = k) := by
  rw [projectMessage_as_bind] at h
  cases e : getMessageId m with
  | error err =>
    rw [e, exceptBindError] at h
    cases h
  | ok mid =>
    rw [e, exceptBindOk] at h
    have h2 : m.foldl (fun acc p =>
        if p.1 ∈ schema then
          addRows acc p.1 ((entriesList p.2).map (entryToRow mid p.1))
        else acc) t = res := by
      cases h
      rfl
    rw [← h2] at hk
    exact lookup_proj_foldl schema mid m t k hk

theorem conv_lookup_aux (schema : List String) (msgs : List Message)
    (t res : Tables) (k : String)
    (h : msgs.foldlM (projectMessage schema) t = Except.ok res)
    (hk : (List.lookup k res).isSome = true) :
    (List.lookup k t).isSome = true
      ∨ (k ∈ schema ∧ ∃ m ∈ msgs, ∃ q ∈ m, q.1 = k) := by
  induction msgs generalizing t with
  | nil =>
    rw [List.foldlM_nil] at h
    cases h
    exact Or.inl hk
  | cons m rest ih =>
    rw [List.foldlM_cons] at h
    cases e : projectMessage schema t m with
    | error err =>
      rw [e, exceptBindError] at h
      cases h
    | ok t' =>
      rw [e, exceptBindOk] at h
      rcases ih t' h with h1 | h1
      · rcases projectMessage_lookup schema t m t' k e h1 with h2 | h2
        · exact Or.inl h2
        · exact Or.inr ⟨h2.1, m, by simp, h2.2⟩
      · obtain ⟨hs, m', hm', hq⟩ := h1
        exact Or.inr ⟨hs, m', by simp [hm'], hq⟩

theorem conv_isOk_eq (msgs : List Message) (schema : List String) :
    ∀ t, exceptOk (msgs.foldlM (projectMessage schema) t)
      = msgs.all (fun m => exceptOk (getMessageId m)) := by
  induction msgs with
  | nil => intro t; rfl
  | cons m rest ih =>
    intro t
    rw [List.foldlM_cons]
    cases e : getMessageId m with
    | error err =>
      have hp : projectMessage schema t m = Except.error err := by
        rw [projectMessage_as_bind, e, exceptBindError]
      rw [hp, exceptBindError]
      simp [List.all_cons, exceptOk, e]
    | ok mid =>
      have hp : projectMessage schema t m = Except.ok (m.foldl (fun acc p =>
          if p.1 ∈ schema then
            addRows acc p.1 ((entriesList p.2).map (entryToRow mid p.1))
          else acc) t) := by
        rw [projectMessage_as_bind, e, exceptBindOk]
        rfl
      rw [hp, exceptBindOk, ih]
      simp [List.all_cons, exceptOk, e]

/-- C9.  Projection filters on the schema without error: a table exists
only for a segment name present both in the schema and in some message
(so a name absent from the schema yields no table), and whether projection
raises does not depend on the schema at all (the silent-skip path raises
nothing). -/
theorem C9_schema_filtering :
    (∀ msgs schema tables,
      convert_to_parquet_tables msgs schema = Except.ok tables →
      ∀ name, (List.lookup name tables).isSome = true →
        name ∈ schema ∧ ∃ m ∈ msgs, ∃ q ∈ m, q.1 = name)
    ∧ (∀ msgs schema tables,
      convert_to_parquet_tables msgs schema = Except.ok tables →
      ∀ name, name ∉ schema → List.lookup name tables = Option.none)
    ∧ (∀ msgs s1 s2, exceptOk (convert_to_parquet_tables msgs s1)
        = exceptOk (convert_to_parquet_tables msgs s2)) := by
  have main : ∀ msgs schema tables,
      convert_to_parquet_tables msgs schema = Except.ok tables →
      ∀ name, (List.lookup name tables).isSome = true →
        name ∈ schema ∧ ∃ m ∈ msgs, ∃ q ∈ m, q.1 = name := by
    intro msgs schema tables h name hn
    rcases conv_lookup_aux schema msgs [] tables name h hn with h1 | h1
    · simp at h1
    · exact h1
  refine ⟨main, ?_, ?_⟩
  · intro msgs schema tables h name hns
    cases e : List.lookup name tables with
    | none => rfl
    | some v =>
      exact absurd (main msgs schema tables h name (by simp [e])).1 hns
  · intro msgs s1 s2
    rw [show convert_to_parquet_tables msgs s1
        = msgs.foldlM (projectMessage s1) [] from rfl]
    rw [show convert_to_parquet_tables msgs s2
        = msgs.foldlM (projectMessage s2) [] from rfl]
    rw [conv_isOk_eq msgs s1 [], conv_isOk_eq msgs s2 []]

/-- C9 witness: the theorem applied at a message holding an MSH and an
unrecognized ZZZ segment, with a schema recognizing only MSH. -/
theorem C9_schema_filtering_witness :
    ("MSH" ∈ ["MSH"]
      ∧ ∃ m ∈ [[("MSH", SegEntry.single [("10", PyVal.str "M1")]),
                ("ZZZ", SegEntry.single [("1", PyVal.str "z")])]],
          ∃ q ∈ m, q.1 = "MSH")
    ∧ List.lookup "ZZZ"
        [("MSH", [({ message_control_id := PyVal.str "M1",
                     cells := [("MSH-10", PyVal.str "M1")] } : Row)])]
        = Option.none
    ∧ exceptOk (convert_to_parquet_tables
        [[("MSH", SegEntry.single [("10", PyVal.str "M1")]),
          ("ZZZ", SegEntry.single [("1", PyVal.str "z")])]] ["MSH"])
      = exceptOk (convert_to_parquet_tables
        [[("MSH", SegEntry.single [("10", PyVal.str "M1")]),
          ("ZZZ", SegEntry.single [("1", PyVal.str "z")])]] []) := by
  refine ⟨?_, ?_, ?_⟩
  · exact C9_schema_filtering.1
      [[("MSH", SegEntry.single [("10", PyVal.str "M1")]),
        ("ZZZ", SegEntry.single [("1", PyVal.str "z")])]] ["MSH"]
      [("MSH", [({ message_control_id := PyVal.str "M1",
                   cells := [("MSH-10", PyVal.str "M1")] } : Row)])]
      (by decide) "MSH" (by decide)
  · exact C9_schema_filtering.2.1
      [[("MSH", SegEntry.single [("10", PyVal.str "M1")]),
        ("ZZZ", SegEntry.single [("1", PyVal.str "z")])]] ["MSH"]
      [("MSH", [({ message_control_id := PyVal.str "M1",
                   cells := [("MSH-10", PyVal.str "M1")] } : Row)])]
      (by decide) "ZZZ" (by decide)
  · exact C9_schema_filtering.2.2
      [[("MSH", SegEntry.single [("10", PyVal.str "M1")]),
        ("ZZZ", SegEntry.single [("1", PyVal.str "z")])]] ["MSH"] []
